import Mathlib

/-!
# Verification of the Plex.sort playlist-sorting program

A shallow embedding of `plex_sort.py` (the single source file of the
Plex.sort repository) together with theorems about its behaviour.

The embedding follows the source closely:

* `Entry` models a playlist item with the optional attributes the program
  sorts by; `Entry.getattr` models Python's `getattr` for those names.
* `pySorted` models Python's built-in `sorted(items, key=..., reverse=...)`
  as a stable insertion sort (Python's sort is stable; a stable sort over a
  total preorder is unique, so any stable sort models it).
* `sortPlaylist` is the embedding of `sort_playlist`.  Crucially, the source
  calls `sorted(items, ...)` and discards the returned list both times (it
  never writes `items = sorted(...)` nor `items.sort(...)`), so the
  non-shuffle branch leaves `items` in its original order; the embedding
  reproduces this faithfully.
* `Cmd` records the commands issued to the remote collaborator
  (`playlist.moveItem` and `Playlist.create`); `applyMove`/`applyCmds` give
  the collaborator's documented semantics for them.
-/

namespace PlexSort

open List

/-- Lexicographic comparison of character lists by code point; this is
Python's `<=` on strings. -/
def charListLe : List Char → List Char → Bool
  | [], _ => true
  | _ :: _, [] => false
  | c :: cs, d :: ds =>
    if c.toNat < d.toNat then true
    else if c.toNat = d.toNat then charListLe cs ds
    else false

/-- Python's `s <= t` on strings. -/
def strLe (s t : String) : Bool :=
  charListLe s.data t.data

theorem charListLe_refl : ∀ xs : List Char, charListLe xs xs = true := by
  intro xs
  induction xs with
  | nil => rfl
  | cons c cs ih => simp [charListLe, ih]

theorem charListLe_total : ∀ xs ys : List Char,
    charListLe xs ys = true ∨ charListLe ys xs = true := by
  intro xs
  induction xs with
  | nil => intro ys; exact Or.inl rfl
  | cons c cs ih =>
    intro ys
    cases ys with
    | nil => exact Or.inr rfl
    | cons d ds =>
      simp only [charListLe]
      rcases Nat.lt_trichotomy c.toNat d.toNat with h | h | h
      · exact Or.inl (by simp [h])
      · rcases ih ds with h' | h' <;> [left; right] <;> simp [h, h']
      · exact Or.inr (by simp [h])

theorem charListLe_trans : ∀ xs ys zs : List Char,
    charListLe xs ys = true → charListLe ys zs = true → charListLe xs zs = true := by
  intro xs
  induction xs with
  | nil => intro ys zs _ _; rfl
  | cons c cs ih =>
    intro ys zs h₁ h₂
    cases ys with
    | nil => simp [charListLe] at h₁
    | cons d ds =>
      cases zs with
      | nil => simp [charListLe] at h₂
      | cons e es =>
        simp only [charListLe] at h₁ h₂ ⊢
        by_cases hcd : c.toNat < d.toNat <;> by_cases hde : d.toNat < e.toNat <;>
          by_cases hcd' : c.toNat = d.toNat <;> by_cases hde' : d.toNat = e.toNat <;>
          simp_all <;>
          first
            | omega
            | (exact ih ds es h₁ h₂)

/-- A Python attribute value as used by the sort keys: either `None`, an
`int` (year, duration), or a `str` (the various title fields). -/
inductive PyVal where
  | none : PyVal
  | int : Int → PyVal
  | str : String → PyVal
deriving DecidableEq, Repr

/-- A total order on `PyVal`.  Python itself raises `TypeError` when
comparing `None` with a value or an `int` with a `str`; within one
invocation of the program every compared value has the same type, and on
same-typed values this order agrees exactly with Python's `<=`.  The
extension to mixed types (`none` first, then `int`, then `str`) merely
totalises the order so that the sort is a total function. -/
def PyVal.le : PyVal → PyVal → Bool
  | .none, _ => true
  | .int _, .none => false
  | .int m, .int n => m ≤ n
  | .int _, .str _ => true
  | .str _, .none => false
  | .str _, .int _ => false
  | .str s, .str t => strLe s t

theorem PyVal.le_refl (a : PyVal) : PyVal.le a a = true := by
  cases a <;> simp [PyVal.le, strLe, charListLe_refl]

theorem PyVal.le_total (a b : PyVal) : PyVal.le a b = true ∨ PyVal.le b a = true := by
  cases a <;> cases b <;>
    simp only [PyVal.le, strLe, decide_eq_true_eq] <;>
    first
      | exact Or.inl trivial
      | exact Or.inr trivial
      | exact Int.le_total _ _
      | exact charListLe_total _ _

theorem PyVal.le_trans {a b c : PyVal} (h₁ : PyVal.le a b = true) (h₂ : PyVal.le b c = true) :
    PyVal.le a c = true := by
  cases a <;> cases b <;> cases c <;>
    simp_all only [PyVal.le, strLe, decide_eq_true_eq, Bool.false_eq_true] <;>
    first
      | exact Int.le_trans h₁ h₂
      | exact charListLe_trans _ _ _ h₁ h₂

/-- A playlist item, with the optional attributes `plex_sort.py` sorts by.
Each may be absent (`Option.none`, Python `None`). -/
structure Entry where
  title : Option String := Option.none
  titleSort : Option String := Option.none
  originalTitle : Option String := Option.none
  grandparentTitle : Option String := Option.none
  parentTitle : Option String := Option.none
  year : Option Int := Option.none
  duration : Option Int := Option.none
deriving DecidableEq, Repr

/-- Lift an optional string attribute to a `PyVal`. -/
def ostr : Option String → PyVal
  | Option.none => PyVal.none
  | Option.some s => PyVal.str s

/-- Lift an optional integer attribute to a `PyVal`. -/
def oint : Option Int → PyVal
  | Option.none => PyVal.none
  | Option.some n => PyVal.int n

/-- Python's `getattr(entry, key)` for the attribute names the program uses.
The program only ever passes the names below (they come from the fixed
`choices` tables in `choose_sorting_method`). -/
def Entry.getattr (e : Entry) : String → PyVal
  | "title" => ostr e.title
  | "titleSort" => ostr e.titleSort
  | "originalTitle" => ostr e.originalTitle
  | "grandparentTitle" => ostr e.grandparentTitle
  | "parentTitle" => ostr e.parentTitle
  | "year" => oint e.year
  | "duration" => oint e.duration
  | _ => PyVal.none

/-- The per-element comparison value of the `sorted` calls in
`sort_playlist`: the lambda
`getattr(x, key) if getattr(x, key) is not None else getattr(x, backup_key)`. -/
def pyKeyVal (key backupKey : String) (e : Entry) : PyVal :=
  if e.getattr key ≠ PyVal.none then e.getattr key else e.getattr backupKey

/-- The ordering relation used by `pySorted`: plain key comparison when
`reverse` is false, the reversed comparison when `reverse` is true.  In both
cases ties (equal key values) are related both ways, so a stable sort keeps
tied elements in their original relative order — exactly Python's
documented behaviour for `sorted(..., reverse=True)`. -/
def pyLe (key : Entry → PyVal) : Bool → Entry → Entry → Prop
  | false, a, b => PyVal.le (key a) (key b) = true
  | true, a, b => PyVal.le (key b) (key a) = true

instance (key : Entry → PyVal) (reverse : Bool) : DecidableRel (pyLe key reverse) := by
  cases reverse <;> exact fun a b => inferInstanceAs (Decidable (_ = true))

instance (key : Entry → PyVal) (reverse : Bool) : IsTotal Entry (pyLe key reverse) := by
  cases reverse <;> constructor <;> intro a b
  · exact PyVal.le_total (key a) (key b)
  · exact PyVal.le_total (key b) (key a)

instance (key : Entry → PyVal) (reverse : Bool) : IsTrans Entry (pyLe key reverse) := by
  cases reverse <;> constructor <;> intro a b c hab hbc
  · exact PyVal.le_trans hab hbc
  · exact PyVal.le_trans hbc hab

/-- Python's `sorted(l, key=key, reverse=reverse)`: a stable sort by the key
values, ascending when `reverse` is false and descending when it is true. -/
def pySorted (key : Entry → PyVal) (reverse : Bool) (l : List Entry) : List Entry :=
  List.insertionSort (pyLe key reverse) l

/-- A playlist as the program sees it: display title, summary, media-type
tag (`playlistType`), smart flag, and its ordered items. -/
structure Playlist where
  title : String
  summary : String
  playlistType : String
  smart : Bool
  items : List Entry
deriving DecidableEq, Repr

/-- `get_playlists`: all playlists of the server, filtered by smart status
(`[playlist for playlist in server.playlists() if not playlist.smart]`). -/
def get_playlists (serverPlaylists : List Playlist) : List Playlist :=
  serverPlaylists.filter (fun playlist => !playlist.smart)

/-- A command issued to the remote collaborator during `sort_playlist`:
either `playlist.moveItem(item, after=previous_item)` or
`Playlist.create(server, title, summary, items, playlistType)`. -/
inductive Cmd where
  | moveItem (item : Entry) (after : Option Entry)
  | createPlaylist (title : String) (summary : String)
      (items : List Entry) (playlistType : String)
deriving DecidableEq, Repr

/-- The loop of `sort_playlist`'s in-place branch:
`previous_item = None; for item in items: playlist.moveItem(item, after=previous_item); previous_item = item`. -/
def moveCmds : Option Entry → List Entry → List Cmd
  | _, [] => []
  | previous, item :: rest => Cmd.moveItem item previous :: moveCmds (some item) rest

/-- The first `sorted(...)` call of `sort_playlist` (the primary sort pass),
with the key lambda built from `sort_key` and `backup_sort_key`. -/
def primaryPass (items : List Entry) (sort_key backup_sort_key : String)
    (sort_reverse : Bool) : List Entry :=
  pySorted (pyKeyVal sort_key backup_sort_key) sort_reverse items

/-- The second `sorted(...)` call of `sort_playlist` (the secondary sort
pass), with the key lambda built from `secondary_sort_key` and
`backup_secondary_sort_key`. -/
def secondaryPass (items : List Entry) (secondary_sort_key backup_secondary_sort_key : String)
    (sort_reverse : Bool) : List Entry :=
  pySorted (pyKeyVal secondary_sort_key backup_secondary_sort_key) sort_reverse items

/-- The list of `sorted(...)` calls executed by the non-shuffle branch of
`sort_playlist`, in order.  The primary pass always runs; the secondary pass
runs exactly under the source's guard
`if secondary_sort_key and playlist.playlistType == "audio"` (a non-empty
string is truthy).  Both calls receive the original `items` list, and the
source discards both return values. -/
def executedPasses (items : List Entry)
    (sort_key backup_sort_key secondary_sort_key backup_secondary_sort_key : String)
    (playlistType : String) (sort_reverse : Bool) : List (List Entry) :=
  [primaryPass items sort_key backup_sort_key sort_reverse] ++
    (if secondary_sort_key ≠ "" ∧ playlistType = "audio" then
      [secondaryPass items secondary_sort_key backup_secondary_sort_key sort_reverse]
    else [])

/-- The item order `sort_playlist` ends up applying (lines 354–372 of the
source).  `random.shuffle(items)` mutates the list into some permutation,
modelled by the `shuffled` parameter.  In the non-shuffle branch the source
calls `sorted(items, ...)` (twice at most) but never assigns the result
(`items = sorted(...)` or `items.sort(...)` is absent), so the returned
lists are discarded and `items` keeps its original order. -/
def computedOrder (items : List Entry)
    (sort_key backup_sort_key secondary_sort_key backup_secondary_sort_key : String)
    (playlistType : String) (sort_reverse : Bool) (shuffled : List Entry) : List Entry :=
  if sort_key = "shuffle" then shuffled
  else
    let _ := primaryPass items sort_key backup_sort_key sort_reverse
    let _ :=
      if secondary_sort_key ≠ "" ∧ playlistType = "audio" then
        some (secondaryPass items secondary_sort_key backup_secondary_sort_key sort_reverse)
      else Option.none
    items

/-- The embedding of `sort_playlist`.  Returns the playlist the function
returns together with the list of commands issued to the collaborator.
`shuffled` stands for the permutation `random.shuffle` produces when the
shuffle key is selected (unused otherwise). -/
def sort_playlist (playlist : Playlist)
    (sort_key backup_sort_key secondary_sort_key backup_secondary_sort_key : String)
    (sort_reverse : Bool) (duplicate : Bool) (shuffled : List Entry) : Playlist × List Cmd :=
  let items := computedOrder playlist.items sort_key backup_sort_key
    secondary_sort_key backup_secondary_sort_key playlist.playlistType sort_reverse shuffled
  if duplicate then
    let new_playlist : Playlist :=
      { title := "Copy of " ++ playlist.title
        summary := playlist.summary
        playlistType := playlist.playlistType
        smart := false
        items := items }
    (new_playlist,
      [Cmd.createPlaylist ("Copy of " ++ playlist.title) playlist.summary items
        playlist.playlistType])
  else
    (playlist, moveCmds Option.none items)

/-- Insert `item` immediately after the first occurrence of `anchor`
(appending at the end when the anchor is absent, a case the program never
produces). -/
def insertAfter : List Entry → Entry → Entry → List Entry
  | [], _, item => [item]
  | x :: xs, anchor, item =>
    if x = anchor then x :: item :: xs else x :: insertAfter xs anchor item

/-- Modelled from the spec: the collaborator's `move_entry` operation
(`playlist.moveItem(item, after=...)`): the item is removed from its current
position and put at the front when `after` is none, or immediately after the
anchor entry otherwise. -/
def applyMove (s : List Entry) (item : Entry) (after : Option Entry) : List Entry :=
  let s' := s.erase item
  match after with
  | Option.none => item :: s'
  | Option.some anchor => insertAfter s' anchor item

/-- The effect of one issued command on the source playlist's server-side
item list: a move reorders it, creating a new playlist leaves it untouched. -/
def applyCmd (s : List Entry) : Cmd → List Entry
  | Cmd.moveItem item after => applyMove s item after
  | Cmd.createPlaylist _ _ _ _ => s

/-- The source playlist's server-side item list after a command sequence. -/
def applyCmds (s : List Entry) (cmds : List Cmd) : List Entry :=
  cmds.foldl applyCmd s

/-- Modelled from the spec: `compute_order` as §4.1 intends it — the
primary stable sort, then (for audio playlists with a configured secondary
key) a second stable sort over the *already primary-sorted* sequence. -/
def computeOrderSpec (items : List Entry)
    (sort_key backup_sort_key secondary_sort_key backup_secondary_sort_key : String)
    (playlistType : String) (sort_reverse : Bool) : List Entry :=
  let once := primaryPass items sort_key backup_sort_key sort_reverse
  if secondary_sort_key ≠ "" ∧ playlistType = "audio" then
    secondaryPass once secondary_sort_key backup_secondary_sort_key sort_reverse
  else once

/-! ### Lemmas about the move-command loop and the collaborator semantics -/

theorem moveCmds_length (l : List Entry) : ∀ previous, (moveCmds previous l).length = l.length := by
  induction l with
  | nil => intro previous; rfl
  | cons i rest ih =>
    intro previous
    simp [moveCmds, ih (some i)]

theorem moveCmds_eq_zip (l : List Entry) : ∀ previous,
    moveCmds previous l =
      (l.zip (previous :: l.map some)).map (fun p => Cmd.moveItem p.1 p.2) := by
  induction l with
  | nil => intro previous; rfl
  | cons i rest ih =>
    intro previous
    simp only [moveCmds, List.map_cons, List.zip_cons_cons, ih (some i)]

theorem insertAfter_perm (anchor item : Entry) :
    ∀ l : List Entry, insertAfter l anchor item ~ item :: l := by
  intro l
  induction l with
  | nil => rfl
  | cons x xs ih =>
    by_cases hx : x = anchor
    · simp only [insertAfter, if_pos hx]
      exact List.Perm.swap item x xs
    · simp only [insertAfter, if_neg hx]
      exact (ih.cons x).trans (List.Perm.swap item x xs)

theorem applyMove_perm {s : List Entry} {item : Entry} (after : Option Entry)
    (h : item ∈ s) : applyMove s item after ~ s := by
  cases after with
  | none => exact (List.perm_cons_erase h).symm
  | some anchor =>
    exact ((insertAfter_perm anchor item (s.erase item)).trans
      (List.perm_cons_erase h).symm)

theorem applyCmds_moveCmds_perm (l : List Entry) : ∀ (previous : Option Entry) (s : List Entry),
    (∀ i ∈ l, i ∈ s) → applyCmds s (moveCmds previous l) ~ s := by
  induction l with
  | nil => intro _ s _; rfl
  | cons i rest ih =>
    intro previous s hmem
    have hi : i ∈ s := hmem i (List.mem_cons_self i rest)
    have hstep : applyMove s i previous ~ s := applyMove_perm previous hi
    have hmem' : ∀ j ∈ rest, j ∈ applyMove s i previous := fun j hj =>
      hstep.mem_iff.mpr (hmem j (List.mem_cons_of_mem i hj))
    calc applyCmds s (moveCmds previous (i :: rest))
        = applyCmds (applyMove s i previous) (moveCmds (some i) rest) := rfl
      _ ~ applyMove s i previous := ih (some i) _ hmem'
      _ ~ s := hstep

theorem insertAfter_of_not_mem (t : List Entry) (anchor item : Entry) :
    ∀ d : List Entry, anchor ∉ d →
      insertAfter (d ++ anchor :: t) anchor item = d ++ anchor :: item :: t := by
  intro d
  induction d with
  | nil => intro _; simp [insertAfter]
  | cons x xs ih =>
    intro ha
    have hxa : x ≠ anchor := fun h => ha (h ▸ List.mem_cons_self x xs)
    have ha' : anchor ∉ xs := fun h => ha (List.mem_cons_of_mem x h)
    simp only [List.cons_append, insertAfter, if_neg hxa, List.append_eq, ih ha']

theorem applyCmds_moveCmds_run (l : List Entry) : ∀ (done rest : List Entry),
    rest ~ l → (done ++ l).Nodup →
    applyCmds (done ++ rest) (moveCmds done.getLast? l) = done ++ l := by
  induction l with
  | nil =>
    intro done rest hperm _
    rw [List.perm_nil.mp hperm]
    rfl
  | cons i rest' ih =>
    intro done rest hperm hnd
    have hi_rest : i ∈ rest := hperm.mem_iff.mpr (List.mem_cons_self i rest')
    have hi_not_done : i ∉ done := by
      intro hcontra
      exact ((List.nodup_append.mp hnd).2.2 hcontra) (List.mem_cons_self i rest')
    have herase : (done ++ rest).erase i = done ++ rest.erase i :=
      List.erase_append_right rest hi_not_done
    have hperm' : rest.erase i ~ rest' := by
      have := hperm.erase i
      rwa [List.erase_cons_head] at this
    rcases done.eq_nil_or_concat with rfl | ⟨d, a, rfl⟩
    · show applyCmds (applyMove rest i Option.none) (moveCmds (some i) rest') = i :: rest'
      have hstate : applyMove rest i Option.none = [i] ++ rest.erase i := rfl
      have := ih ([i]) (rest.erase i) hperm' (by simpa using hnd)
      simpa [hstate] using this
    · simp only [List.concat_eq_append] at hnd hi_not_done herase ⊢
      have hlast : (d ++ [a]).getLast? = some a := List.getLast?_concat d
      have ha_not_d : a ∉ d := by
        have hl := (List.nodup_append.mp hnd).1
        rw [List.nodup_append] at hl
        exact fun h => (hl.2.2 h) (List.mem_singleton.mpr rfl)
      show applyCmds (applyMove ((d ++ [a]) ++ rest) i ((d ++ [a]).getLast?))
          (moveCmds (some i) rest') = (d ++ [a]) ++ i :: rest'
      rw [hlast]
      have hstate : applyMove ((d ++ [a]) ++ rest) i (some a)
          = ((d ++ [a]) ++ [i]) ++ rest.erase i := by
        show insertAfter (((d ++ [a]) ++ rest).erase i) a i
          = ((d ++ [a]) ++ [i]) ++ rest.erase i
        rw [herase, List.append_assoc d [a] (rest.erase i), List.singleton_append,
          insertAfter_of_not_mem (rest.erase i) a i d ha_not_d]
        simp [List.append_assoc]
      rw [hstate]
      have hnd'' : (((d ++ [a]) ++ [i]) ++ rest').Nodup := by
        rw [List.append_assoc (d ++ [a]) [i] rest', List.singleton_append]
        exact hnd
      have happ := ih ((d ++ [a]) ++ [i]) (rest.erase i) hperm' hnd''
      rw [List.getLast?_concat (d ++ [a])] at happ
      rw [happ, List.append_assoc (d ++ [a]) [i] rest', List.singleton_append]

/-! ### The interactive menu of `choose_sorting_method` -/

/-- Numeric value of a digit string (most significant digit first). -/
def digitsVal (cs : List Char) : Nat :=
  cs.foldl (fun n c => n * 10 + (c.toNat - 48)) 0

/-- Modelled from Python semantics: `int(s)` for plain decimal numerals —
an optional sign followed by one or more digits; any other string raises
`ValueError`, modelled as `none`.  (Python additionally accepts surrounding
whitespace and underscore digit separators, which this model omits; that
only enlarges the set of accepted inputs.) -/
def pyInt (s : String) : Option Int :=
  match s.toList with
  | [] => Option.none
  | '-' :: rest =>
    if rest ≠ [] ∧ rest.all Char.isDigit then some (-(digitsVal rest : Int)) else Option.none
  | '+' :: rest =>
    if rest ≠ [] ∧ rest.all Char.isDigit then some ((digitsVal rest : Int)) else Option.none
  | cs =>
    if cs.all Char.isDigit then some ((digitsVal cs : Int)) else Option.none

/-- Modelled from Python semantics: sequence indexing `l[i]` for an `int`
index — non-negative indices count from the front, negative indices from
the back (`l[-1]` is the last element), and an index out of the range
`-len(l) ≤ i < len(l)` raises `IndexError`, modelled as `none`. -/
def pyIndex {α : Type} (l : List α) (i : Int) : Option α :=
  if 0 ≤ i then l[i.toNat]?
  else if (l.length : Int) + i < 0 then Option.none
  else l[((l.length : Int) + i).toNat]?

/-- The re-prompt loop of `choose_sorting_method` (used for both the
sort-key prompt, lines 181–187, and the sort-direction prompt, lines
208–214): read an input, attempt `choices[int(input)]`, and on
`ValueError` or `IndexError` silently continue the loop.  `inputs` is the
sequence of user entries; the result is `none` when every entry was
rejected (the loop is still waiting for more input). -/
def selectLoop {α : Type} (choices : List α) : List String → Option α
  | [] => Option.none
  | s :: rest =>
    match (pyInt s).bind (fun i => pyIndex choices i) with
    | some c => some c
    | Option.none => selectLoop choices rest

/-- One entry of the `choices` table in `choose_sorting_method`; the
optional fields model keys absent from the corresponding Python dict. -/
structure SortChoice where
  name : String
  key : String
  backup_key : Option String := Option.none
  secondary_key : Option String := Option.none
  secondary_backup_key : Option String := Option.none
deriving DecidableEq, Repr

/-- The `choices` table built by `choose_sorting_method` for a playlist of
the given `playlistType` (lines 114–174): two title choices, then the
audio- or video-specific choices, then duration and shuffle. -/
def sortChoices (playlistType : String) : List SortChoice :=
  [{ name := "Title", key := "title", secondary_key := some "originalTitle",
     secondary_backup_key := some "grandparentTitle" },
   { name := "Sorting title", key := "titleSort", secondary_key := some "originalTitle",
     secondary_backup_key := some "grandparentTitle" }]
  ++ (if playlistType = "audio" then
      [{ name := "Artist name", key := "originalTitle", backup_key := some "grandparentTitle",
         secondary_key := some "title" },
       { name := "Album artist name", key := "grandparentTitle", secondary_key := some "title" },
       { name := "Album name", key := "parentTitle", secondary_key := some "originalTitle",
         secondary_backup_key := some "grandparentTitle" }]
    else if playlistType = "video" then
      [{ name := "Release year", key := "year", secondary_key := some "title" }]
    else [])
  ++ [{ name := "Duration", key := "duration", secondary_key := some "title" },
      { name := "Shuffle randomly", key := "shuffle" }]

/-- A component of the tuple returned by `choose_sorting_method`: a key
string or the boolean reverse flag. -/
inductive PyObj where
  | str : String → PyObj
  | bool : Bool → PyObj
deriving DecidableEq, Repr

/-- The tuple `choose_sorting_method` returns, modelled as a list (Python
tuples unpack positionally): for the shuffle choice the 3-tuple
`(key, key, False)` of line 190, otherwise the 5-tuple of lines 216–222,
whose `dict.get(k, default)` calls fall back to the choice's own key. -/
def choiceTuple (c : SortChoice) (reverse : Bool) : List PyObj :=
  if c.key = "shuffle" then [PyObj.str c.key, PyObj.str c.key, PyObj.bool false]
  else
    [PyObj.str c.key,
     PyObj.str (c.backup_key.getD c.key),
     PyObj.str (c.secondary_key.getD c.key),
     PyObj.str (c.secondary_backup_key.getD c.key),
     PyObj.bool reverse]

/-- The unpacking at the call site (lines 420–422):
`sort_key, backup_sort_key, secondary_sort_key, backup_secondary_sort_key,
sort_reverse = choose_sorting_method(playlist)`.  Unpacking a tuple of any
length other than five raises `ValueError`, modelled as `none`. -/
def unpack5 (t : List PyObj) : Option (PyObj × PyObj × PyObj × PyObj × PyObj) :=
  match t with
  | [a, b, c, d, e] => some (a, b, c, d, e)
  | _ => Option.none

/-! ### Concrete inputs for the end-to-end scenarios -/

/-- A track titled "B" (all other attributes absent). -/
def entryB : Entry := { title := some "B" }

/-- A track titled "A" (all other attributes absent). -/
def entryA : Entry := { title := some "A" }

/-- A track titled "C" (all other attributes absent). -/
def entryC : Entry := { title := some "C" }

/-- The spec's end-to-end scenario playlist `[{title:"B"}, {title:"A"}, {title:"C"}]`. -/
def scenarioPlaylist : Playlist :=
  { title := "My playlist", summary := "", playlistType := "video", smart := false,
    items := [entryB, entryA, entryC] }

/-- A track titled "B" by artist "X", for the secondary-sort scenario. -/
def trackBX : Entry := { title := some "B", originalTitle := some "X" }

/-- A track titled "A" by artist "X", for the secondary-sort scenario. -/
def trackAX : Entry := { title := some "A", originalTitle := some "X" }

/-- An audio playlist holding `[trackBX, trackAX]`. -/
def audioPlaylist : Playlist :=
  { title := "Songs", summary := "", playlistType := "audio", smart := false,
    items := [trackBX, trackAX] }

/-! ### Claim theorems -/

/-- Claim C1 (code evaluation at the failing input): on the spec's
end-to-end scenario — playlist `[B, A, C]`, sort key `title` ascending,
`duplicate=false` — the code issues `move(B, after=None)`,
`move(A, after=B)`, `move(C, after=A)` and leaves the playlist in the
original order `[B, A, C]`, not `[A, B, C]`: the `sorted(...)` call whose
result would have been `[A, B, C]` is discarded.  This refutes the claim
that the result is non-decreasing in the chosen key. -/
theorem claim1_code_evaluation :
    (sort_playlist scenarioPlaylist "title" "title" "originalTitle" "grandparentTitle"
        false false []).2 =
      [Cmd.moveItem entryB Option.none, Cmd.moveItem entryA (some entryB),
        Cmd.moveItem entryC (some entryA)] ∧
    applyCmds scenarioPlaylist.items
      (sort_playlist scenarioPlaylist "title" "title" "originalTitle" "grandparentTitle"
        false false []).2 = [entryB, entryA, entryC] ∧
    primaryPass [entryB, entryA, entryC] "title" "title" false = [entryA, entryB, entryC] ∧
    [entryB, entryA, entryC] ≠ [entryA, entryB, entryC] :=
  ⟨by decide, by decide, by decide, by decide⟩

/-- Claim C2: the reordering `sort_playlist` performs is a permutation —
the collaborator's item list after applying every issued command is a
permutation of the list before, the returned playlist's items are a
permutation of the input items, and with `duplicate=true` the source
playlist's items are left exactly unchanged (only a create command is
issued).  `shuffled` ranges over the permutations `random.shuffle` can
produce. -/
theorem claim2_permutation (playlist : Playlist) (k bk k2 bk2 : String) (r dup : Bool)
    (shuffled : List Entry) (hsh : shuffled ~ playlist.items) :
    applyCmds playlist.items (sort_playlist playlist k bk k2 bk2 r dup shuffled).2
      ~ playlist.items ∧
    (sort_playlist playlist k bk k2 bk2 r dup shuffled).1.items ~ playlist.items ∧
    (dup = true →
      applyCmds playlist.items (sort_playlist playlist k bk k2 bk2 r dup shuffled).2
        = playlist.items) := by
  have horder : computedOrder playlist.items k bk k2 bk2 playlist.playlistType r shuffled
      ~ playlist.items := by
    by_cases hk : k = "shuffle"
    · simpa [computedOrder, hk] using hsh
    · simp [computedOrder, hk]
  cases dup with
  | false =>
    refine ⟨?_, List.Perm.refl _, by intro h; cases h⟩
    exact applyCmds_moveCmds_perm _ Option.none _ (fun i hi => horder.subset hi)
  | true =>
    exact ⟨List.Perm.refl _, horder, fun _ => rfl⟩

/-- Claim C2 witness: the permutation invariant instantiated on the
concrete scenario playlist. -/
theorem claim2_witness :
    applyCmds scenarioPlaylist.items
      (sort_playlist scenarioPlaylist "title" "title" "originalTitle" "grandparentTitle"
        false false scenarioPlaylist.items).2 ~ scenarioPlaylist.items :=
  (claim2_permutation scenarioPlaylist "title" "title" "originalTitle" "grandparentTitle"
    false false scenarioPlaylist.items (List.Perm.refl _)).1

/-- Claim C3: with `duplicate=false`, `sort_playlist` issues exactly one
`moveItem` command per entry of the computed order, walking it left to
right: the anchors are `none` followed by the entries of the computed
order themselves (each move is anchored to the immediately preceding,
already repositioned entry), and replaying the commands against the
collaborator's list ends in exactly the computed sequence. -/
theorem claim3_moves (playlist : Playlist) (k bk k2 bk2 : String) (r : Bool)
    (shuffled order : List Entry)
    (horder : order = computedOrder playlist.items k bk k2 bk2 playlist.playlistType r shuffled)
    (hsh : shuffled ~ playlist.items) (hnd : playlist.items.Nodup) :
    (sort_playlist playlist k bk k2 bk2 r false shuffled).2 = moveCmds Option.none order ∧
    (sort_playlist playlist k bk k2 bk2 r false shuffled).2.length
      = playlist.items.length ∧
    moveCmds Option.none order =
      (order.zip (Option.none :: order.map some)).map (fun p => Cmd.moveItem p.1 p.2) ∧
    applyCmds playlist.items (sort_playlist playlist k bk k2 bk2 r false shuffled).2
      = order := by
  subst horder
  have hperm : computedOrder playlist.items k bk k2 bk2 playlist.playlistType r shuffled
      ~ playlist.items := by
    by_cases hk : k = "shuffle"
    · simpa [computedOrder, hk] using hsh
    · simp [computedOrder, hk]
  refine ⟨rfl, ?_, moveCmds_eq_zip _ Option.none, ?_⟩
  · exact (moveCmds_length _ Option.none).trans hperm.length_eq
  · have hnd' : (computedOrder playlist.items k bk k2 bk2 playlist.playlistType r
        shuffled).Nodup := hperm.nodup_iff.mpr hnd
    have := applyCmds_moveCmds_run
      (computedOrder playlist.items k bk k2 bk2 playlist.playlistType r shuffled)
      [] playlist.items hperm.symm (by simpa using hnd')
    simpa using this

/-- Claim C3 witness: on the scenario playlist three move commands are
issued, one per entry. -/
theorem claim3_witness :
    (sort_playlist scenarioPlaylist "title" "title" "originalTitle" "grandparentTitle"
        false false scenarioPlaylist.items).2.length = scenarioPlaylist.items.length :=
  (claim3_moves scenarioPlaylist "title" "title" "originalTitle" "grandparentTitle" false
    scenarioPlaylist.items _ rfl (List.Perm.refl _) (by decide)).2.1

/-- Claim C4: with `duplicate=true`, `sort_playlist` issues exactly one
create-playlist command whose title is the original title prefixed with
"Copy of ", whose summary and media-type tag are the original's and whose
items are the computed order; it returns that new playlist, and applying
the issued commands leaves the source playlist's items untouched. -/
theorem claim4_duplicate (playlist : Playlist) (k bk k2 bk2 : String) (r : Bool)
    (shuffled : List Entry) :
    sort_playlist playlist k bk k2 bk2 r true shuffled =
      ({ title := "Copy of " ++ playlist.title, summary := playlist.summary,
         playlistType := playlist.playlistType, smart := false,
         items := computedOrder playlist.items k bk k2 bk2 playlist.playlistType r shuffled },
        [Cmd.createPlaylist ("Copy of " ++ playlist.title) playlist.summary
          (computedOrder playlist.items k bk k2 bk2 playlist.playlistType r shuffled)
          playlist.playlistType]) ∧
    applyCmds playlist.items (sort_playlist playlist k bk k2 bk2 r true shuffled).2
      = playlist.items :=
  ⟨rfl, rfl⟩

/-- Claim C5 (code evaluation at the failing input): for an audio playlist
`[B by X, A by X]` sorted by artist with secondary key `title`, the code
leaves the order `[B, A]` — the primary `sorted` result is discarded, so
the secondary `sorted` call runs over the original order and its result is
discarded too — whereas the spec's `compute_order` (secondary stable pass
over the primary-sorted sequence) yields the grouped order `[A, B]`. -/
theorem claim5_code_evaluation :
    computedOrder audioPlaylist.items "originalTitle" "grandparentTitle" "title"
        "originalTitle" "audio" false [] = [trackBX, trackAX] ∧
    computeOrderSpec audioPlaylist.items "originalTitle" "grandparentTitle" "title"
        "originalTitle" "audio" false = [trackAX, trackBX] ∧
    primaryPass audioPlaylist.items "originalTitle" "grandparentTitle" false
      = [trackBX, trackAX] ∧
    [trackBX, trackAX] ≠ [trackAX, trackBX] :=
  ⟨by decide, by decide, by decide, by decide⟩

/-- Claim C6: the non-shuffle primary sort pass orders entries by the value
`e[sort_key] if not None else e[backup_sort_key]` (that is `pyKeyVal`):
its output is a permutation of the input, pairwise non-decreasing in that
value when ascending was chosen and pairwise non-increasing when
descending was chosen, and the pass is stable — two entries with equal
comparison values keep their original relative order in either
direction. -/
theorem claim6_primary_sort (items : List Entry) (k bk : String) :
    (∀ r, primaryPass items k bk r ~ items) ∧
    (primaryPass items k bk false).Pairwise
      (fun a b => PyVal.le (pyKeyVal k bk a) (pyKeyVal k bk b) = true) ∧
    (primaryPass items k bk true).Pairwise
      (fun a b => PyVal.le (pyKeyVal k bk b) (pyKeyVal k bk a) = true) ∧
    (∀ r a b, [a, b].Sublist items → pyKeyVal k bk a = pyKeyVal k bk b →
      [a, b].Sublist (primaryPass items k bk r)) := by
  refine ⟨fun r => List.perm_insertionSort _ _, ?_, ?_, ?_⟩
  · exact List.sorted_insertionSort (pyLe (pyKeyVal k bk) false) items
  · exact List.sorted_insertionSort (pyLe (pyKeyVal k bk) true) items
  · intro r a b hsub heq
    refine List.pair_sublist_insertionSort ?_ hsub
    cases r
    · show PyVal.le (pyKeyVal k bk a) (pyKeyVal k bk b) = true
      rw [heq]
      exact PyVal.le_refl _
    · show PyVal.le (pyKeyVal k bk b) (pyKeyVal k bk a) = true
      rw [heq]
      exact PyVal.le_refl _

/-- Claim C6 witness: stability instantiated on two tracks by the same
artist — the equal-key pair keeps its original order through the
ascending primary sort. -/
theorem claim6_witness :
    [trackBX, trackAX].Sublist
      (primaryPass [trackBX, trackAX] "originalTitle" "grandparentTitle" false) :=
  (claim6_primary_sort [trackBX, trackAX] "originalTitle" "grandparentTitle").2.2.2
    false trackBX trackAX (List.Sublist.refl _) (by decide)

/-- Claim C7: the secondary sort pass runs exactly when a secondary key is
configured (a non-empty string, Python truthiness) and the playlist's type
is `audio`; for a non-audio playlist, or an empty secondary key, only the
primary pass runs.  The secondary pass uses the comparison value
`pyKeyVal secondary_sort_key backup_secondary_sort_key` and the same
direction flag as the primary pass (visible in `executedPasses`). -/
theorem claim7_secondary_guard (items : List Entry) (k bk k2 bk2 t : String) (r : Bool) :
    (k2 ≠ "" ∧ t = "audio" →
      executedPasses items k bk k2 bk2 t r =
        [primaryPass items k bk r, secondaryPass items k2 bk2 r]) ∧
    (t ≠ "audio" → executedPasses items k bk k2 bk2 t r = [primaryPass items k bk r]) ∧
    (k2 = "" → executedPasses items k bk k2 bk2 t r = [primaryPass items k bk r]) := by
  refine ⟨fun h => ?_, fun h => ?_, fun h => ?_⟩
  · simp [executedPasses, h.1, h.2]
  · simp [executedPasses, h]
  · simp [executedPasses, h]

/-- Claim C7 witness: for the audio scenario playlist both passes run; for
a video playlist with the same keys only the primary pass runs. -/
theorem claim7_witness :
    executedPasses [trackBX, trackAX] "originalTitle" "grandparentTitle" "title"
        "originalTitle" "audio" false =
      [primaryPass [trackBX, trackAX] "originalTitle" "grandparentTitle" false,
        secondaryPass [trackBX, trackAX] "title" "originalTitle" false] ∧
    executedPasses [trackBX, trackAX] "originalTitle" "grandparentTitle" "title"
        "originalTitle" "video" false =
      [primaryPass [trackBX, trackAX] "originalTitle" "grandparentTitle" false] :=
  ⟨(claim7_secondary_guard [trackBX, trackAX] "originalTitle" "grandparentTitle" "title"
      "originalTitle" "audio" false).1 ⟨by decide, rfl⟩,
    (claim7_secondary_guard [trackBX, trackAX] "originalTitle" "grandparentTitle" "title"
      "originalTitle" "video" false).2.1 (by decide)⟩

theorem pyIndex_some_range {α : Type} {l : List α} {i : Int} {c : α}
    (h : pyIndex l i = some c) : -(l.length : Int) ≤ i ∧ i < (l.length : Int) := by
  unfold pyIndex at h
  by_cases h0 : 0 ≤ i
  · rw [if_pos h0] at h
    have hlt : i.toNat < l.length := by
      rcases List.getElem?_eq_some.mp h with ⟨hl, _⟩
      exact hl
    omega
  · rw [if_neg h0] at h
    by_cases hneg : (l.length : Int) + i < 0
    · rw [if_pos hneg] at h
      cases h
    · rw [if_neg hneg] at h
      have hlt : ((l.length : Int) + i).toNat < l.length := by
        rcases List.getElem?_eq_some.mp h with ⟨hl, _⟩
        exact hl
      omega

/-- Claim C8 counterexample: the menu loop does not reject every entry
outside the displayed indices `0 .. len-1` — the input `"-1"` parses as
the integer `-1`, which is not a displayed index, yet the loop accepts it
and selects the last choice (Python's negative indexing). -/
theorem claim8_counterexample :
    selectLoop ["A", "B", "C"] ["-1"] = some "C" ∧
    pyInt "-1" = some (-1) ∧ ¬ (0 ≤ (-1 : Int)) :=
  ⟨by decide, by decide, by decide⟩

/-- Claim C8 as amended: a menu entry that fails to parse as an integer,
or parses to an index outside Python's range `-len ≤ i < len`, is silently
rejected and the loop re-prompts; the loop exits exactly when the entered
value is a valid Python index of the choice list (negative indices count
from the end), and every accepted selection arises from such an index. -/
theorem claim8_amended_loop {α : Type} (choices : List α) (s : String) (rest : List String) :
    ((pyInt s).bind (fun i => pyIndex choices i) = Option.none →
      selectLoop choices (s :: rest) = selectLoop choices rest) ∧
    (∀ c, (pyInt s).bind (fun i => pyIndex choices i) = some c →
      selectLoop choices (s :: rest) = some c) ∧
    (∀ (inputs : List String) (c : α), selectLoop choices inputs = some c →
      ∃ t ∈ inputs, ∃ i, pyInt t = some i ∧ pyIndex choices i = some c ∧
        -(choices.length : Int) ≤ i ∧ i < (choices.length : Int)) := by
  refine ⟨fun h => ?_, fun c h => ?_, fun inputs => ?_⟩
  · simp [selectLoop, h]
  · simp [selectLoop, h]
  · induction inputs with
    | nil => intro c h; simp [selectLoop] at h
    | cons s' rest' ih =>
      intro c h
      cases hbind : (pyInt s').bind (fun i => pyIndex choices i) with
      | none =>
        simp only [selectLoop, hbind] at h
        obtain ⟨u, hu, i, h1, h2, h3, h4⟩ := ih c h
        exact ⟨u, List.mem_cons_of_mem _ hu, i, h1, h2, h3, h4⟩
      | some c' =>
        simp only [selectLoop, hbind, Option.some.injEq] at h
        subst h
        obtain ⟨i, hp, hidx⟩ := Option.bind_eq_some.mp hbind
        have hr := pyIndex_some_range hidx
        exact ⟨s', List.mem_cons_self _ _, i, hp, hidx, hr.1, hr.2⟩

/-- Claim C8 witness: a non-numeric entry is silently skipped, and the
entry `"1"` then selects the second choice. -/
theorem claim8_witness :
    selectLoop ["A", "B", "C"] ["x", "1"] = selectLoop ["A", "B", "C"] ["1"] ∧
    selectLoop ["A", "B", "C"] ["1"] = some "B" :=
  ⟨(claim8_amended_loop ["A", "B", "C"] "x" ["1"]).1 (by decide),
    (claim8_amended_loop ["A", "B", "C"] "1" []).2.1 "B" (by decide)⟩

/-- Claim C9: for every choice in the menu table, the tuple
`choose_sorting_method` returns has three components exactly for the
"Shuffle randomly" choice (whose key is "shuffle") and five components for
every other choice; the five-variable unpacking at the call site therefore
fails (`ValueError`, modelled as `none`) precisely when shuffle was
selected — and the shuffle choice is offered for every playlist type. -/
theorem claim9_tuple_arity (t : String) (c : SortChoice) (hc : c ∈ sortChoices t)
    (reverse : Bool) :
    (c.key = "shuffle" →
      (choiceTuple c reverse).length = 3 ∧ unpack5 (choiceTuple c reverse) = Option.none) ∧
    (c.key ≠ "shuffle" →
      (choiceTuple c reverse).length = 5 ∧ (unpack5 (choiceTuple c reverse)).isSome = true) ∧
    (c.name = "Shuffle randomly" ↔ c.key = "shuffle") ∧
    ({ name := "Shuffle randomly", key := "shuffle" } : SortChoice) ∈ sortChoices t := by
  refine ⟨fun hk => ?_, fun hk => ?_, ?_, List.mem_append_right _ (by decide)⟩
  · simp [choiceTuple, hk, unpack5]
  · simp [choiceTuple, hk, unpack5]
  · by_cases ha : t = "audio"
    · simp only [sortChoices, ha] at hc
      simp at hc
      rcases hc with rfl | rfl | rfl | rfl | rfl | rfl | rfl <;> decide
    · by_cases hv : t = "video"
      · simp only [sortChoices, ha, hv] at hc
        simp [ha, hv] at hc
        rcases hc with rfl | rfl | rfl | rfl | rfl <;> decide
      · simp only [sortChoices] at hc
        simp [ha, hv] at hc
        rcases hc with rfl | rfl | rfl | rfl <;> decide

/-- Claim C9 witness: on an audio playlist the shuffle choice is in the
table and its tuple defeats the five-variable unpacking. -/
theorem claim9_witness :
    unpack5 (choiceTuple { name := "Shuffle randomly", key := "shuffle" } false)
      = Option.none :=
  ((claim9_tuple_arity "audio" { name := "Shuffle randomly", key := "shuffle" }
    (by decide) false).1 rfl).2

/-- Claim C10: `get_playlists` returns exactly the non-smart playlists, as
a sublist of the server's list (so in the server's order); a smart playlist
is never among the returned choices. -/
theorem claim10_smart_filter (serverPlaylists : List Playlist) :
    (get_playlists serverPlaylists).Sublist serverPlaylists ∧
    (∀ p, p ∈ get_playlists serverPlaylists ↔ p ∈ serverPlaylists ∧ p.smart = false) := by
  refine ⟨List.filter_sublist _, fun p => ?_⟩
  simp [get_playlists, List.mem_filter]

end PlexSort
